import Mathlib

/-!
Shallow embedding of hw1-q2.py: a regularized closed-form linear-regression
solver, an online linear-regression model, a one-hidden-layer neural
regression model, and the shared training/evaluation loop.

Machine floats are modelled by exact rationals; the RMSE square root is
taken in the reals.  Row-indexed data (the arguments of train_epoch and
predict) is modelled by lists, matching the iteration order of the source.
A second, list-based embedding of the linear model keeps numpy's dynamic
dimension checks explicit, for the error-handling claims.
-/

open Matrix

/-- Feature and weight vectors of a fixed dimensionality. -/
abbrev Vec (n : ℕ) := Fin n → ℚ

/-- The ridge coefficient 0.0001 from solve_analytically. -/
def lamReg : ℚ := 1 / 10000

/-- np.linalg.inv: the exact inverse when the matrix is nonsingular,
    none (LinAlgError) when the determinant vanishes. -/
def npInv {k : ℕ} (M : Matrix (Fin k) (Fin k) ℚ) : Option (Matrix (Fin k) (Fin k) ℚ) :=
  if M.det = 0 then none else some (M.det⁻¹ • M.adjugate)

/-- solve_analytically from hw1-q2.py.  The regularizer is
    np.identity(min(n, f)) * 0.0001 added to XᵗX (an f×f matrix) under
    numpy broadcasting: if min(n, f) = f the shapes agree and the full f×f
    scaled identity is added; if min(n, f) = 1 (and f is not 1) numpy
    broadcasts the 1×1 matrix, adding the scalar 0.0001 to every entry;
    any other size raises a ValueError, modelled by none. -/
def solve_analytically {n f : ℕ} (X : Matrix (Fin n) (Fin f) ℚ) (y : Vec n) :
    Option (Vec f) :=
  let xt := Xᵀ
  let G := xt * X
  if min n f = f then
    match npInv (G + lamReg • (1 : Matrix (Fin f) (Fin f) ℚ)) with
    | none => none
    | some Minv => some (Minv *ᵥ (xt *ᵥ y))
  else if min n f = 1 then
    match npInv (G + Matrix.of fun _ _ => lamReg) with
    | none => none
    | some Minv => some (Minv *ᵥ (xt *ᵥ y))
  else none

namespace LinearRegression

/-- LinearRegression.predict on a single row: np.dot(x_i, w). -/
def predict_row {f : ℕ} (w : Vec f) (x : Vec f) : ℚ :=
  dotProduct x w

/-- LinearRegression.update_weight from hw1-q2.py: compute the prediction,
    and only when it differs from the target apply
    w ← w − learning_rate · (−x_i · (y_i − ŷ)). -/
def update_weight {f : ℕ} (w : Vec f) (x_i : Vec f) (y_i : ℚ)
    (learning_rate : ℚ) : Vec f :=
  let y_hat := predict_row w x_i
  if y_hat ≠ y_i then
    fun j => w j - learning_rate * (-(x_i j) * (y_i - y_hat))
  else w

/-- LinearRegression.predict on a matrix of rows: X·w, one dot per row. -/
def predict {f : ℕ} (w : Vec f) (X : List (Vec f)) : List ℚ :=
  X.map (fun x => dotProduct x w)

end LinearRegression

/-- Parameter state of NeuralRegression: hidden weights and biases, output
    weights and bias (output dimension 1, as in the source). -/
structure NRState (hidden f : ℕ) where
  w1 : Matrix (Fin hidden) (Fin f) ℚ
  b1 : Vec hidden
  w2 : Matrix (Fin 1) (Fin hidden) ℚ
  b2 : Vec 1

attribute [ext] NRState

namespace NeuralRegression

/-- Elementwise ReLU, np.maximum(z, 0). -/
def relu {k : ℕ} (z : Vec k) : Vec k := fun i => max (z i) 0

/-- NeuralRegression.update_weight from hw1-q2.py: forward pass
    z1 = W1·x+b1, h1 = max(z1,0), z2 = W2·h1+b2, h2 = max(z2,0);
    gradients seeded with grad_z2 = h2 − y_i, backpropagated, and all four
    parameters moved by plain gradient descent. -/
def update_weight {hidden f : ℕ} (st : NRState hidden f) (x_i : Vec f) (y_i : ℚ)
    (learning_rate : ℚ) : NRState hidden f :=
  let z1 := st.w1 *ᵥ x_i + st.b1
  let h1 := relu z1
  let z2 := st.w2 *ᵥ h1 + st.b2
  let h2 := relu z2
  let grad_z2 : Vec 1 := fun i => h2 i - y_i
  let grad_W2 : Matrix (Fin 1) (Fin hidden) ℚ := Matrix.of fun i j => grad_z2 i * h1 j
  let grad_b2 := grad_z2
  let grad_h1 : Vec hidden := st.w2ᵀ *ᵥ grad_z2
  let grad_z1 : Vec hidden := fun i => grad_h1 i * (if h1 i > 0 then 1 else 0)
  let grad_W1 : Matrix (Fin hidden) (Fin f) ℚ := Matrix.of fun i j => grad_z1 i * x_i j
  let grad_b1 := grad_z1
  { w1 := st.w1 - learning_rate • grad_W1
    b1 := st.b1 - learning_rate • grad_b1
    w2 := st.w2 - learning_rate • grad_W2
    b2 := st.b2 - learning_rate • grad_b2 }

/-- The forward value appended for one row of predict: the output-layer
    pre-activation z2[0] = (W2·max(W1·x+b1, 0) + b2)[0]. -/
def forward_z2 {hidden f : ℕ} (st : NRState hidden f) (x_i : Vec f) : ℚ :=
  let z1 := st.w1 *ᵥ x_i + st.b1
  let h1 := relu z1
  let z2 := st.w2 *ᵥ h1 + st.b2
  z2 0

/-- NeuralRegression.predict from hw1-q2.py: iterate over the rows of X in
    order, appending z2[0] for each row to an initially empty array. -/
def predict {hidden f : ℕ} (st : NRState hidden f) (X : List (Vec f)) : List ℚ :=
  X.foldl (fun Y_hat x_i => Y_hat ++ [forward_z2 st x_i]) []

end NeuralRegression

namespace RegressionModel

/-- _RegressionModel.train_epoch from hw1-q2.py, polymorphic over the model
    (as the duck-typed base class is): iterate over zip(X, y) — which stops
    at the shorter of the two — and apply update_weight to each pair in
    turn, threading the mutated state.  The learning rate is part of the
    update function, as the kwargs are forwarded unchanged. -/
def train_epoch {M : Type} {f : ℕ} (update_weight : M → Vec f → ℚ → M)
    (st : M) (X : List (Vec f)) (y : List ℚ) : M :=
  (X.zip y).foldl (fun s p => update_weight s p.1 p.2) st

/-- _RegressionModel.evaluate from hw1-q2.py, polymorphic over the model:
    yhat = predict(X), error = yhat − y (elementwise, shapes agreeing),
    squared_error = np.dot(error, error), divided by y.shape[0], and the
    square root taken. -/
noncomputable def evaluate {M : Type} {f : ℕ} (predict : M → List (Vec f) → List ℚ)
    (model : M) (X : List (Vec f)) (y : List ℚ) : ℝ :=
  let yhat := predict model X
  let error := List.zipWith (fun a b => a - b) yhat y
  let squared_error := (List.zipWith (fun a b => a * b) error error).sum
  let mean_squared_error := squared_error / (y.length : ℚ)
  Real.sqrt (mean_squared_error : ℝ)

end RegressionModel

/-! ### List-based embedding of the linear model

numpy arrays carry their lengths dynamically; np.dot raises a ValueError
when the two 1-D operands disagree in length.  This layer models rows and
the weight vector as plain lists of rationals so that dimension mismatches
are representable, returning none / Except.error where numpy raises. -/

/-- np.dot on two 1-D arrays: the dot product when the lengths agree,
    none (ValueError) otherwise. -/
def npDot1 (a b : List ℚ) : Option ℚ :=
  if a.length = b.length then some (List.zipWith (fun u v => u * v) a b).sum
  else none

namespace LinearRegressionL

/-- List-based LinearRegression.update_weight: np.dot(x_i, w) first (which
    raises on a dimension mismatch, before any write to w), then the
    equality-guarded gradient step. -/
def update_weight (w : List ℚ) (x_i : List ℚ) (y_i : ℚ)
    (learning_rate : ℚ) : Option (List ℚ) :=
  match npDot1 x_i w with
  | none => none
  | some y_hat =>
    if y_hat ≠ y_i then
      some (List.zipWith (fun wj xj => wj - learning_rate * (-xj * (y_i - y_hat))) w x_i)
    else some w

/-- List-based _RegressionModel.train_epoch for the linear model: iterate
    over zip(X, y) (stopping at the shorter list), updating the weights in
    place; a dimension error aborts the loop, leaving the weights in the
    state they had reached, carried on the error side. -/
def train_epoch (w : List ℚ) (X : List (List ℚ)) (y : List ℚ)
    (learning_rate : ℚ) : Except (List ℚ) (List ℚ) :=
  match X, y with
  | x_i :: X', y_i :: y' =>
    match update_weight w x_i y_i learning_rate with
    | none => Except.error w
    | some w' => train_epoch w' X' y' learning_rate
  | [], _ => Except.ok w
  | _ :: _, [] => Except.ok w

end LinearRegressionL

/-- The training loop's per-epoch shuffle (main, hw1-q2.py): one index
    permutation is drawn and both train_X and train_y are reindexed by it;
    train_epoch then consumes zip of the two reordered arrays. -/
def epochShuffle {n f : ℕ} (train_order : List (Fin n))
    (train_X : Fin n → Vec f) (train_y : Fin n → ℚ) :
    List (Vec f) × List ℚ :=
  (train_order.map train_X, train_order.map train_y)


/-! ### Helper lemmas -/

/-- Folding list append of singletons is map. -/
theorem foldl_append_singleton {α β : Type} (g : α → β) (X : List α) (acc : List β) :
    X.foldl (fun a x => a ++ [g x]) acc = acc ++ X.map g := by
  induction X generalizing acc with
  | nil => simp
  | cons x X ih => simp [ih]

/-- A successful npInv is a right inverse. -/
theorem npInv_mul {k : ℕ} (M Minv : Matrix (Fin k) (Fin k) ℚ)
    (h : npInv M = some Minv) : M * Minv = 1 := by
  unfold npInv at h
  by_cases hd : M.det = 0
  · simp [hd] at h
  · simp only [hd, if_false] at h
    cases h
    rw [Matrix.mul_smul, Matrix.mul_adjugate, smul_smul, inv_mul_cancel₀ hd, one_smul]

/-! ### Claims -/

/-- C2: LinearRegression.update computes ŷ = w·x_i and, only if ŷ ≠ y_i
    exactly, replaces w by w − learning_rate·(−x_i·(y_i − ŷ)); when
    ŷ = y_i exactly, w is left unchanged. -/
theorem claim_C2_linear_update {f : ℕ} (w x_i : Vec f) (y_i learning_rate : ℚ) :
    (LinearRegression.predict_row w x_i ≠ y_i →
      LinearRegression.update_weight w x_i y_i learning_rate =
        fun j => w j - learning_rate *
          (-(x_i j) * (y_i - LinearRegression.predict_row w x_i))) ∧
    (LinearRegression.predict_row w x_i = y_i →
      LinearRegression.update_weight w x_i y_i learning_rate = w) := by
  constructor <;> intro h <;> simp [LinearRegression.update_weight, h]

/-- Witness for C2 at w = [0], x = [1], y = 1, lr = 1/2 (prediction 0 ≠ 1,
    so the gradient step fires). -/
theorem claim_C2_witness :
    LinearRegression.update_weight ![(0:ℚ)] ![1] 1 (1/2) =
      fun j => ![(0:ℚ)] j - (1/2) *
        (-(![(1:ℚ)] j) * (1 - LinearRegression.predict_row ![(0:ℚ)] ![1])) :=
  (claim_C2_linear_update ![(0:ℚ)] ![1] 1 (1/2)).1 (by
    simp [LinearRegression.predict_row, dotProduct])

/-- C3: NeuralRegression.update runs the forward pass, seeds the output
    gradient as grad_z2 = h2 − y_i (with respect to the ReLU'd output h2,
    not the raw z2), backpropagates grad_W2 = grad_z2 ⊗ h1,
    grad_b2 = grad_z2, grad_z1 = (W2ᵗ·grad_z2) masked by [h1 > 0],
    grad_W1 = grad_z1 ⊗ x_i, grad_b1 = grad_z1, and subtracts
    learning_rate times each gradient from all four parameter tensors. -/
theorem claim_C3_neural_update {hidden f : ℕ} (st : NRState hidden f)
    (x_i : Vec f) (y_i learning_rate : ℚ) :
    let z1 := st.w1 *ᵥ x_i + st.b1
    let h1 : Vec hidden := fun i => max (z1 i) 0
    let z2 := st.w2 *ᵥ h1 + st.b2
    let h2 : Vec 1 := fun i => max (z2 i) 0
    let grad_z2 : Vec 1 := fun i => h2 i - y_i
    let grad_z1 : Vec hidden :=
      fun i => (st.w2ᵀ *ᵥ grad_z2) i * (if h1 i > 0 then 1 else 0)
    (NeuralRegression.update_weight st x_i y_i learning_rate).w1 =
        st.w1 - learning_rate • Matrix.vecMulVec grad_z1 x_i ∧
    (NeuralRegression.update_weight st x_i y_i learning_rate).b1 =
        st.b1 - learning_rate • grad_z1 ∧
    (NeuralRegression.update_weight st x_i y_i learning_rate).w2 =
        st.w2 - learning_rate • Matrix.vecMulVec grad_z2 h1 ∧
    (NeuralRegression.update_weight st x_i y_i learning_rate).b2 =
        st.b2 - learning_rate • grad_z2 :=
  ⟨rfl, rfl, rfl, rfl⟩

/-- C4: NeuralRegression.predict maps each row, in order, to the
    output-layer pre-activation z2 = W2·max(W1·x_i + b1, 0) + b2 — no ReLU
    on the returned value, one scalar per row, order preserved. -/
theorem claim_C4_neural_predict {hidden f : ℕ} (st : NRState hidden f)
    (X : List (Vec f)) :
    NeuralRegression.predict st X =
      X.map (fun x_i =>
        (st.w2 *ᵥ NeuralRegression.relu (st.w1 *ᵥ x_i + st.b1) + st.b2) 0) := by
  unfold NeuralRegression.predict
  rw [foldl_append_singleton]
  simp [NeuralRegression.forward_z2]

/-- Summing elementwise products of an error list with itself is summing
    squared differences. -/
theorem zipWith_sub_sq_sum (a b : List ℚ) :
    (List.zipWith (fun u v => u * v) (List.zipWith (fun p q => p - q) a b)
        (List.zipWith (fun p q => p - q) a b)).sum =
      (List.zipWith (fun p q => (p - q) ^ 2) a b).sum := by
  induction a generalizing b with
  | nil => simp
  | cons x a ih =>
    cases b with
    | nil => simp
    | cons v b =>
      simp only [List.zipWith_cons_cons, List.sum_cons, ih]
      ring

/-- C5: evaluate returns sqrt(mean((predict(X) − y)²)), takes the model by
    value (no state change is possible), and is deterministic: two calls on
    the same arguments are equal. -/
theorem claim_C5_evaluate {M : Type} {f : ℕ} (predict : M → List (Vec f) → List ℚ)
    (model : M) (X : List (Vec f)) (y : List ℚ)
    (hlen : (predict model X).length = y.length) (hne : y ≠ []) :
    RegressionModel.evaluate predict model X y =
      Real.sqrt
        (((List.zipWith (fun a b => (a - b) ^ 2) (predict model X) y).sum /
            (y.length : ℚ) : ℚ) : ℝ) ∧
    RegressionModel.evaluate predict model X y =
      RegressionModel.evaluate predict model X y := by
  refine ⟨?_, rfl⟩
  unfold RegressionModel.evaluate
  simp only [zipWith_sub_sq_sum]

/-- Witness for C5: a constant model predicting [3] against y = [1] has
    RMSE sqrt((3 − 1)²/1). -/
theorem claim_C5_witness :
    RegressionModel.evaluate (M := Unit) (f := 1) (fun _ _ => [(3:ℚ)]) () [] [1] =
      Real.sqrt
        (((List.zipWith (fun a b => (a - b) ^ 2) [(3:ℚ)] [(1:ℚ)]).sum /
            (([(1:ℚ)].length : ℚ)) : ℚ) : ℝ) ∧
    RegressionModel.evaluate (M := Unit) (f := 1) (fun _ _ => [(3:ℚ)]) () [] [1] =
      RegressionModel.evaluate (M := Unit) (f := 1) (fun _ _ => [(3:ℚ)]) () [] [1] :=
  claim_C5_evaluate (fun _ _ => [(3:ℚ)]) () [] [1] rfl (by simp)

/-- C6: train_epoch is the left fold of update over the zipped rows in the
    given order, and extending the data by one trailing example applies one
    further update to the state left by the previous examples. -/
theorem claim_C6_train_epoch_fold {M : Type} {f : ℕ}
    (update_weight : M → Vec f → ℚ → M) (st : M) (X : List (Vec f))
    (y : List ℚ) (x : Vec f) (yv : ℚ) (hlen : X.length = y.length) :
    RegressionModel.train_epoch update_weight st X y =
      (X.zip y).foldl (fun s p => update_weight s p.1 p.2) st ∧
    RegressionModel.train_epoch update_weight st (X ++ [x]) (y ++ [yv]) =
      update_weight (RegressionModel.train_epoch update_weight st X y) x yv := by
  refine ⟨rfl, ?_⟩
  unfold RegressionModel.train_epoch
  rw [List.zip_append hlen, List.foldl_append]
  rfl

/-- Witness for C6 with a one-example list and one appended example, over a
    running-sum state. -/
theorem claim_C6_witness :
    RegressionModel.train_epoch (fun (s : ℚ) (x : Vec 1) (yv : ℚ) => s + x 0 * yv)
        0 [![2]] [5] =
      (([![(2:ℚ)]].zip [(5:ℚ)]).foldl (fun s p => s + p.1 0 * p.2) 0) ∧
    RegressionModel.train_epoch (fun (s : ℚ) (x : Vec 1) (yv : ℚ) => s + x 0 * yv)
        0 ([![2]] ++ [![3]]) ([5] ++ [7]) =
      (RegressionModel.train_epoch (fun (s : ℚ) (x : Vec 1) (yv : ℚ) => s + x 0 * yv)
        0 [![2]] [5]) + ![(3:ℚ)] 0 * 7 :=
  claim_C6_train_epoch_fold (fun s x yv => s + x 0 * yv) 0 [![2]] [5] ![3] 7 rfl

/-- With a zero learning rate a NeuralRegression update moves nothing. -/
theorem NeuralRegression.update_weight_zero {hidden f : ℕ} (st : NRState hidden f)
    (x_i : Vec f) (y_i : ℚ) :
    NeuralRegression.update_weight st x_i y_i 0 = st := by
  unfold NeuralRegression.update_weight
  ext <;> simp

/-- An update that fixes every state makes train_epoch the identity. -/
theorem RegressionModel.train_epoch_fixed {M : Type} {f : ℕ}
    (upd : M → Vec f → ℚ → M) (h : ∀ s x y_i, upd s x y_i = s)
    (st : M) (X : List (Vec f)) (y : List ℚ) :
    RegressionModel.train_epoch upd st X y = st := by
  unfold RegressionModel.train_epoch
  induction X.zip y generalizing st with
  | nil => rfl
  | cons p l ih => rw [List.foldl_cons, h]; exact ih st

/-- C7: with learning_rate = 0, the NeuralRegression parameters are exactly
    their initial values after any number of train_epoch calls on any data. -/
theorem claim_C7_zero_learning_rate {hidden f : ℕ} (st : NRState hidden f)
    (epochs : List (List (Vec f) × List ℚ)) :
    epochs.foldl
      (fun s e => RegressionModel.train_epoch
        (fun m x_i y_i => NeuralRegression.update_weight m x_i y_i 0) s e.1 e.2)
      st = st := by
  induction epochs generalizing st with
  | nil => rfl
  | cons e es ih =>
    rw [List.foldl_cons,
      RegressionModel.train_epoch_fixed _ (fun s x y_i => NeuralRegression.update_weight_zero s x y_i)]
    exact ih st

/-- C8: reordering features and targets by one and the same index
    permutation leaves the multiset of (feature, target) pairs consumed by
    train_epoch equal to the multiset supplied as input. -/
theorem claim_C8_shuffle_preserves_pairs {n f : ℕ} (train_order : List (Fin n))
    (train_X : Fin n → Vec f) (train_y : Fin n → ℚ)
    (hperm : train_order.Perm (List.finRange n)) :
    ((epochShuffle train_order train_X train_y).1.zip
        (epochShuffle train_order train_X train_y).2).Perm
      (((List.finRange n).map train_X).zip ((List.finRange n).map train_y)) := by
  unfold epochShuffle
  rw [List.zip_map', List.zip_map']
  exact hperm.map _

/-- Witness for C8: the swap permutation [1, 0] on two examples. -/
theorem claim_C8_witness :
    ((epochShuffle (n := 2) (f := 1) [1, 0] (fun i => ![(i : ℚ)])
          (fun i => (i : ℚ))).1.zip
        (epochShuffle (n := 2) (f := 1) [1, 0] (fun i => ![(i : ℚ)])
          (fun i => (i : ℚ))).2).Perm
      (((List.finRange 2).map (fun i => ![(i : ℚ)])).zip
        ((List.finRange 2).map (fun i => (i : ℚ)))) :=
  claim_C8_shuffle_preserves_pairs [1, 0] (fun i => ![(i : ℚ)])
    (fun i => (i : ℚ)) (by decide)

/-- C9: when the feature dimensionality of the rows does not match the
    weight vector, np.dot raises before any weight write: train_epoch
    errors out with the weights still in their pre-call state, and no
    mismatched update ever produces new weights. -/
theorem claim_C9_dimension_mismatch (w : List ℚ) (X : List (List ℚ))
    (y : List ℚ) (learning_rate : ℚ)
    (hmis : ∀ x ∈ X, x.length ≠ w.length) (hX : X ≠ []) (hy : y ≠ []) :
    LinearRegressionL.train_epoch w X y learning_rate = Except.error w ∧
    ∀ x ∈ X, ∀ y_i, LinearRegressionL.update_weight w x y_i learning_rate = none := by
  have hupd : ∀ x ∈ X, ∀ y_i,
      LinearRegressionL.update_weight w x y_i learning_rate = none := by
    intro x hx y_i
    unfold LinearRegressionL.update_weight npDot1
    rw [if_neg (hmis x hx)]
  refine ⟨?_, hupd⟩
  cases X with
  | nil => exact absurd rfl hX
  | cons x X' =>
    cases y with
    | nil => exact absurd rfl hy
    | cons y_i y' =>
      simp only [LinearRegressionL.train_epoch,
        hupd x (List.mem_cons_self x X') y_i]

/-- Witness for C9: a two-feature row against a one-weight model. -/
theorem claim_C9_witness :
    LinearRegressionL.train_epoch [(0:ℚ)] [[1, 2]] [3] 1 = Except.error [(0:ℚ)] ∧
    ∀ x ∈ [[(1:ℚ), 2]], ∀ y_i, LinearRegressionL.update_weight [(0:ℚ)] x y_i 1 = none :=
  claim_C9_dimension_mismatch [0] [[1, 2]] [3] 1 (by decide) (by decide) (by decide)

/-- A well-dimensioned update succeeds and preserves the weight length. -/
theorem LinearRegressionL.update_weight_ok (w x : List ℚ) (y_i learning_rate : ℚ)
    (h : x.length = w.length) :
    ∃ w', LinearRegressionL.update_weight w x y_i learning_rate = some w' ∧
      w'.length = w.length := by
  unfold LinearRegressionL.update_weight npDot1
  rw [if_pos h]
  dsimp only
  by_cases hy : (List.zipWith (fun u v => u * v) x w).sum ≠ y_i
  · rw [if_pos hy]
    exact ⟨_, rfl, by simp [h]⟩
  · rw [if_neg hy]
    exact ⟨w, rfl, rfl⟩

/-- C10: train_epoch with lists of different lengths raises no error and
    silently processes exactly the first min(|X|, |y|) examples: it equals
    the run on the truncated lists and succeeds. -/
theorem claim_C10_zip_truncates (w : List ℚ) (X : List (List ℚ)) (y : List ℚ)
    (learning_rate : ℚ)
    (hdim : ∀ x ∈ X.take (min X.length y.length), x.length = w.length) :
    LinearRegressionL.train_epoch w X y learning_rate =
      LinearRegressionL.train_epoch w (X.take (min X.length y.length))
        (y.take (min X.length y.length)) learning_rate ∧
    ∃ w', LinearRegressionL.train_epoch w X y learning_rate = Except.ok w' := by
  induction X generalizing w y with
  | nil => cases y <;> exact ⟨rfl, w, rfl⟩
  | cons x X' ih =>
    cases y with
    | nil => exact ⟨by simp [LinearRegressionL.train_epoch], w, rfl⟩
    | cons y_i y' =>
      have hx : x.length = w.length := by
        apply hdim
        simp only [List.length_cons, Nat.succ_min_succ, List.take_succ_cons]
        exact List.mem_cons_self x _
      obtain ⟨w', hw', hlen'⟩ :=
        LinearRegressionL.update_weight_ok w x y_i learning_rate hx
      have hdim' : ∀ z ∈ X'.take (min X'.length y'.length), z.length = w'.length := by
        intro z hz
        rw [hlen']
        apply hdim
        simp only [List.length_cons, Nat.succ_min_succ, List.take_succ_cons]
        exact List.mem_cons_of_mem x hz
      obtain ⟨ih1, ih2⟩ := ih w' y' hdim'
      constructor
      · simp only [List.length_cons, Nat.succ_min_succ, List.take_succ_cons,
          LinearRegressionL.train_epoch, hw']
        exact ih1
      · simp only [LinearRegressionL.train_epoch, hw']
        exact ih2

/-- Witness for C10: three rows against two targets process the first two
    examples only. -/
theorem claim_C10_witness :
    LinearRegressionL.train_epoch [(1:ℚ)] [[2], [3], [4]] [5, 6] 1 =
      LinearRegressionL.train_epoch [(1:ℚ)]
        ([[2], [3], [4]].take (min [[(2:ℚ)], [3], [4]].length [(5:ℚ), 6].length))
        ([(5:ℚ), 6].take (min [[(2:ℚ)], [3], [4]].length [(5:ℚ), 6].length)) 1 ∧
    ∃ w', LinearRegressionL.train_epoch [(1:ℚ)] [[2], [3], [4]] [5, 6] 1 =
      Except.ok w' :=
  claim_C10_zip_truncates [1] [[2], [3], [4]] [5, 6] 1 (by decide)

/-- Modelled from the spec: the regularizer the claim describes — an
    identity sized to min(n_points, n_features) embedded into the top-left
    of an (n_features × n_features) matrix. -/
def specEmbeddedIdentity (n f : ℕ) : Matrix (Fin f) (Fin f) ℚ :=
  Matrix.of fun i j => if i = j ∧ (i : ℕ) < min n f then 1 else 0

/-- C1 (amended): whenever n_points ≥ n_features — so that the broadcast
    regularizer really is the full f×f scaled identity — any weight vector
    returned by solve_analytically satisfies the regularized normal
    equation (XᵗX + λI)w = Xᵗy with λ = 1×10⁻⁴. -/
theorem claim_C1_normal_equation {n f : ℕ} (X : Matrix (Fin n) (Fin f) ℚ)
    (y : Vec n) (w : Vec f) (hnf : f ≤ n)
    (hw : solve_analytically X y = some w) :
    (Xᵀ * X + lamReg • (1 : Matrix (Fin f) (Fin f) ℚ)) *ᵥ w = Xᵀ *ᵥ y := by
  unfold solve_analytically at hw
  rw [if_pos (min_eq_right hnf)] at hw
  cases hm : npInv (Xᵀ * X + lamReg • (1 : Matrix (Fin f) (Fin f) ℚ)) with
  | none => rw [hm] at hw; cases hw
  | some Minv =>
    rw [hm] at hw
    cases hw
    rw [Matrix.mulVec_mulVec, npInv_mul _ _ hm, Matrix.one_mulVec]

/-- Witness for C1 at the 1×1 system X = [[1]], y = [1], whose computed
    solution is w = [10000/10001]. -/
theorem claim_C1_witness :
    ((!![(1:ℚ)])ᵀ * !![(1:ℚ)] + lamReg • (1 : Matrix (Fin 1) (Fin 1) ℚ)) *ᵥ
        ![10000/10001] =
      (!![(1:ℚ)])ᵀ *ᵥ ![1] :=
  claim_C1_normal_equation !![(1:ℚ)] ![1] ![10000/10001] (le_refl 1) (by
    have hinv : npInv ((!![(1:ℚ)])ᵀ * !![(1:ℚ)] +
        lamReg • (1 : Matrix (Fin 1) (Fin 1) ℚ)) =
        some ((10001/10000 : ℚ)⁻¹ • 1) := by
      have hM : (!![(1:ℚ)])ᵀ * !![(1:ℚ)] + lamReg • (1 : Matrix (Fin 1) (Fin 1) ℚ) =
          !![(10001/10000 : ℚ)] := by
        ext i j
        fin_cases i; fin_cases j
        simp [Matrix.mul_apply, lamReg, Matrix.one_apply]
        norm_num
      rw [hM]
      unfold npInv
      rw [Matrix.det_fin_one]
      norm_num
    simp only [solve_analytically, min_self, if_pos, hinv]
    congr 1
    funext i
    fin_cases i
    simp [Matrix.mulVec, dotProduct, Matrix.one_apply])

/-- Counterexample to C1 as stated: with one data point and two features,
    X = [[1, 0]], y = [1], numpy broadcasts the 1×1 regularizer over all of
    XᵗX, and the returned w = [1, −1] fails the claimed equation with the
    embedded identity (XᵗX + λ·diag(1, 0))w = Xᵗy. -/
theorem claim_C1_counterexample :
    solve_analytically !![(1:ℚ), 0] ![1] = some ![1, -1] ∧
    ¬ ((!![(1:ℚ), 0])ᵀ * !![(1:ℚ), 0] + lamReg • specEmbeddedIdentity 1 2) *ᵥ
          ![1, -1] =
        (!![(1:ℚ), 0])ᵀ *ᵥ ![1] := by
  constructor
  · have hM : (!![(1:ℚ), 0])ᵀ * !![(1:ℚ), 0] + Matrix.of (fun _ _ => lamReg) =
        !![(10001/10000 : ℚ), 1/10000; 1/10000, 1/10000] := by
      ext i j
      fin_cases i <;> fin_cases j <;>
        simp [Matrix.mul_apply, lamReg] <;> norm_num
    have hinv : npInv ((!![(1:ℚ), 0])ᵀ * !![(1:ℚ), 0] + Matrix.of (fun _ _ => lamReg)) =
        some ((1/10000 : ℚ)⁻¹ •
          !![(1/10000 : ℚ), -(1/10000); -(1/10000), 10001/10000]) := by
      rw [hM]
      unfold npInv
      rw [Matrix.det_fin_two_of]
      norm_num
    simp only [solve_analytically, hinv]
    norm_num
    funext i
    fin_cases i <;>
      simp [Matrix.mulVec, dotProduct, Fin.sum_univ_two, Fin.sum_univ_one,
        Matrix.transpose_apply, Matrix.vecHead, Matrix.vecTail, Function.comp]
  · intro hcontra
    have h0 := congrFun hcontra 0
    simp [Matrix.mulVec, dotProduct, Fin.sum_univ_two, Matrix.mul_apply,
      specEmbeddedIdentity, lamReg] at h0
